import Mathlib

/-!
Verification development for the monday CLI (Go).

This file gives a shallow embedding of the pure core of the repository:

* `SanitizeBranchName`   — src/gitops/manager.go, `SanitizeBranchName`
* `filepathClean` / `filepathJoin` / `filepathBase`
                         — ports of Go's path/filepath `Clean`, `Join`, `Base`
                           (unix separator), used by the worktree manager
* `CreateWorktreeForIssue` — src/gitops/manager.go, over an abstract
                           filesystem and a git-command oracle
* `CleanWorktrees` / `pruneGitWorktrees` — src/unnamed/part_005
* the concurrent issue pool of `Application.Run` — src/main.go (second
  variant in the file), sequentialised: the counters are mutex protected
  in the source, so the aggregate counts equal those of a left fold over
  the dispatch order
* `processIssue` — src/main.go `Application.processIssue`
* `runWorkflow`  — src/cmd/workflow.go `runWorkflow`

External effects (git commands, the Linear HTTP API, the filesystem) are
modelled by explicit oracle records whose booleans say whether the
corresponding call succeeds; the embedded functions are otherwise direct
transcriptions of the Go control flow.
-/

/-! ## Branch-name sanitizer (src/gitops/manager.go `SanitizeBranchName`) -/

/-- Characters kept by the regexp `[^a-zA-Z0-9\-_]` in `SanitizeBranchName`:
ASCII letters, digits, hyphen and underscore. -/
def allowedChar (c : Char) : Bool :=
  decide (('a' ≤ c ∧ c ≤ 'z') ∨ ('A' ≤ c ∧ c ≤ 'Z') ∨ ('0' ≤ c ∧ c ≤ '9') ∨ c = '-' ∨ c = '_')

/-- One character of `reg.ReplaceAllString(name, "-")`: a character outside
the allowed set is replaced by a hyphen. -/
def replChar (c : Char) : Char := if allowedChar c then c else '-'

/-- Go `strings.Trim(s, "-")`: remove all leading and trailing hyphens. -/
def trimDash (l : List Char) : List Char :=
  ((l.dropWhile (fun c => c == '-')).reverse.dropWhile (fun c => c == '-')).reverse

/-- Body of `SanitizeBranchName` on the character list of the input:
empty input falls back to "issue"; otherwise replace disallowed characters
by hyphens, trim hyphens, and fall back to "issue" when the result is empty. -/
def sanitizeChars (l : List Char) : List Char :=
  if l = [] then "issue".data
  else
    let sanitized := trimDash (l.map replChar)
    if sanitized = [] then "issue".data else sanitized

/-- src/gitops/manager.go `SanitizeBranchName`. -/
def SanitizeBranchName (name : String) : String :=
  List.asString (sanitizeChars name.data)

/-- Modelled from the spec wording of C4, for the refinement half of that
claim only: "replace every character outside `[A-Za-z0-9_-]` with `-`; trim
leading/trailing `-`; if the result is empty (including when input was
empty), return the fixed fallback literal `issue`". -/
def sanitizeSpecModel (s : String) : String :=
  let t := trimDash (s.data.map replChar)
  if t = [] then "issue" else List.asString t

/-! ## Port of Go path/filepath `Clean`, `Join`, `Base` (unix separator)

`CreateWorktreeForIssue` computes `worktreePath = filepath.Join(worktreeRoot,
issueID)` and the tests inspect its basename, so the path functions are
ported faithfully from the Go standard library. -/

/-- Backtracking index used by the `..` case of Go `path.Clean`: starting
from `w` (initially `out.length - 1`), walk left while `w > dotdot` and
`out[w]` is not a separator; the output is then truncated at the returned
index, which removes the last path element of `out`. -/
def segIdx (out : List Char) (dotdot : Nat) : Nat → Nat
  | 0 => 0
  | w + 1 =>
    if w + 1 ≤ dotdot then w + 1
    else if out.getD (w + 1) 'a' = '/' then w + 1
    else segIdx out dotdot w

/-- Removes the last path element of `out` (Go `Clean`, case `out.w > dotdot`
of the `..` handling: `out.w--` followed by the backtracking loop, then
truncation). -/
def dropLastSeg (dotdot : Nat) (out : List Char) : List Char :=
  out.take (segIdx out dotdot (out.length - 1))

/-- Main loop of Go `path.Clean`, transcribed case by case. The `fuel`
argument makes the recursion structural: every iteration of the Go loop
consumes at least one input character, so a fuel of `input length + 1`
(what `filepathClean` passes) is never exhausted. -/
def cleanLoop (rooted : Bool) : Nat → Nat → List Char → List Char → List Char
  | 0, _, out, _ => out
  | _ + 1, _, out, [] => out
  | fuel + 1, dotdot, out, c :: r =>
    if c = '/' then
      -- empty path element
      cleanLoop rooted fuel dotdot out r
    else if c = '.' ∧ (r = [] ∨ r.head? = some '/') then
      -- "." element
      cleanLoop rooted fuel dotdot out r
    else if c = '.' ∧ r.head? = some '.' ∧ (r.tail = [] ∨ r.tail.head? = some '/') then
      -- ".." element
      if dotdot < out.length then
        cleanLoop rooted fuel dotdot (dropLastSeg dotdot out) r.tail
      else if rooted = false then
        let out2 := if out.length ≠ 0 then out ++ ['/', '.', '.'] else ['.', '.']
        cleanLoop rooted fuel out2.length out2 r.tail
      else
        cleanLoop rooted fuel dotdot out r.tail
    else
      -- real path element: add a slash if needed, then copy the element
      let out2 := if (rooted ∧ out.length ≠ 1) ∨ (rooted = false ∧ out.length ≠ 0)
        then out ++ ['/'] else out
      cleanLoop rooted fuel dotdot (out2 ++ (c :: r).takeWhile (fun x => x != '/'))
        ((c :: r).dropWhile (fun x => x != '/'))

/-- Go path/filepath `Clean` for a unix separator. -/
def filepathClean (path : String) : String :=
  match path.data with
  | [] => "."
  | c :: rest =>
    let out :=
      if c = '/' then cleanLoop true (path.data.length + 1) 1 ['/'] rest
      else cleanLoop false (path.data.length + 1) 0 [] (c :: rest)
    if out.length = 0 then "." else List.asString out

/-- Go path/filepath `Join` restricted to two elements: skip leading empty
elements, join the rest with the separator, and clean. -/
def filepathJoin (a b : String) : String :=
  if a ≠ "" then filepathClean (a ++ "/" ++ b)
  else if b ≠ "" then filepathClean b
  else ""

/-- Go path/filepath `Base` (unix): strip trailing separators, take the
part after the last separator, with `.` for the empty path and `/` when
nothing remains. -/
def filepathBase (path : String) : String :=
  if path = "" then "."
  else
    let l1 := (path.data.reverse.dropWhile (fun x => x == '/')).reverse
    let l2 := (l1.reverse.takeWhile (fun x => x != '/')).reverse
    if l2 = [] then "/" else List.asString l2

/-! ## Filesystem model and `CreateWorktreeForIssue` (src/gitops/manager.go) -/

/-- Kind of a filesystem entry. -/
inductive FNode
  | dir
  | file
deriving DecidableEq, Repr

/-- Abstract filesystem: association list from absolute path to entry.
Creation prepends, so `fsStat` sees the newest binding for a path. -/
abbrev FS := List (String × FNode)

/-- Go `os.Stat`: `some` when an entry exists at the path. -/
def fsStat (fs : FS) (p : String) : Option FNode :=
  (fs.find? (fun e => e.1 == p)).map (fun e => e.2)

/-- Go `os.MkdirAll` on the success path: create the directory if no entry
exists at the path (parent creation is irrelevant to the claims and is
omitted; a failure of the call is modelled by the `mkdirOk` oracle). -/
def fsMkdirAll (fs : FS) (p : String) : FS :=
  if (fsStat fs p).isSome then fs else (p, FNode.dir) :: fs

/-- Record a new entry at a path. -/
def fsInsert (fs : FS) (p : String) (n : FNode) : FS := (p, n) :: fs

/-- Errors of `CreateWorktreeForIssue`, one per `fmt.Errorf` site. -/
inductive GitErr
  | notARepository
  | branchNotFound
  | worktreeAlreadyExists
  | mkdirFailed
  | worktreeCreationFailed
deriving DecidableEq, Repr

/-- What a successful creation hands to git: the worktree path given to
`git worktree add` (also the return value) and the `-b` branch argument. -/
structure CreatedWorktree where
  path : String
  branch : String
deriving DecidableEq, Repr

/-- Oracle for the external git commands and `os.MkdirAll`:
`repoValid` is the outcome of `git rev-parse --git-dir` in `repoPath`,
`branchExists b` of `git show-ref refs/heads/b`, and `worktreeAddOk` of
`git worktree add`. -/
structure GitEnv where
  repoValid : Bool
  branchExists : String → Bool
  mkdirOk : Bool
  worktreeAddOk : Bool

/-- src/gitops/manager.go `CreateWorktreeForIssue`: validate the
repository, check the base branch, compute the sanitized branch name and
the worktree path `join(worktreeRoot, issueID)` from the raw issue ID,
fail if an entry already exists there, create the worktree root, then run
`git worktree add -b branch worktreePath baseBranch`. On success the git
command has created the directory at `worktreePath`. -/
def CreateWorktreeForIssue (env : GitEnv) (fs : FS)
    (worktreeRoot repoPath issueID baseBranch : String) :
    FS × Except GitErr CreatedWorktree :=
  if env.repoValid = false then (fs, .error .notARepository)
  else if env.branchExists baseBranch = false then (fs, .error .branchNotFound)
  else if (fsStat fs (filepathJoin worktreeRoot issueID)).isSome then
    (fs, .error .worktreeAlreadyExists)
  else if env.mkdirOk = false then (fs, .error .mkdirFailed)
  else if env.worktreeAddOk = false then
    (fsMkdirAll fs worktreeRoot, .error .worktreeCreationFailed)
  else
    (fsInsert (fsMkdirAll fs worktreeRoot) (filepathJoin worktreeRoot issueID) FNode.dir,
      .ok ⟨filepathJoin worktreeRoot issueID, SanitizeBranchName issueID⟩)

/-! ## `CleanWorktrees` and `pruneGitWorktrees` (src/unnamed/part_005)

Timestamps are measured in days on an abstract linear timeline: Go's
`cutoff := time.Now().AddDate(0, 0, -thresholdDays)` is the instant
`thresholdDays` days before `now`, and `ModTime().Before(cutoff)` is the
strict order on instants, so the order-embedding into `Int` day counts is
faithful for the day-granularity properties claimed. -/

/-- Immediate child of the worktree root, as seen by `ioutil.ReadDir`. -/
structure DirEntry where
  name : String
  isDir : Bool
  modTime : Int
deriving DecidableEq, Repr

/-- State touched by the cleanup pass: whether the worktree root exists,
its immediate children, and whether `repoPath/.git` exists. -/
structure CleanupState where
  rootExists : Bool
  entries : List DirEntry
  repoHasGitDir : Bool
deriving DecidableEq, Repr

/-- Oracle for the external calls of the cleanup pass: whether
`os.RemoveAll` fails on a given directory name, and whether the
`git worktree prune` command itself fails. -/
structure CleanupEnv where
  removeFails : String → Bool
  pruneCmdFails : Bool

/-- Errors of `CleanWorktrees`, one per `fmt.Errorf` site. -/
inductive CleanErr
  | invalidThreshold
  | removalFailed (dir : String)
  | gitDirNotFound
  | pruneFailed
deriving DecidableEq, Repr

/-- Directory scan loop of `CleanWorktrees`: non-directories are skipped;
a directory whose modification time is strictly before the cutoff is
logged in dry-run mode, removed otherwise; a removal failure aborts the
pass, keeping the current and all later entries. Returns the surviving
entries and the error, if any. -/
def cleanPass (cutoff : Int) (dryRun : Bool) (env : CleanupEnv) :
    List DirEntry → List DirEntry × Option CleanErr
  | [] => ([], none)
  | e :: rest =>
    if e.isDir = false then
      let res := cleanPass cutoff dryRun env rest
      (e :: res.1, res.2)
    else if e.modTime < cutoff then
      if dryRun then
        let res := cleanPass cutoff dryRun env rest
        (e :: res.1, res.2)
      else if env.removeFails e.name then (e :: rest, some (.removalFailed e.name))
      else cleanPass cutoff dryRun env rest
    else
      let res := cleanPass cutoff dryRun env rest
      (e :: res.1, res.2)

/-- src/unnamed/part_005 `pruneGitWorktrees`: the `repoPath/.git` existence
check runs first; only after it does the dry-run branch return without
running the prune command. -/
def pruneGitWorktrees (hasGitDir : Bool) (env : CleanupEnv) (dryRun : Bool) :
    Option CleanErr :=
  if hasGitDir = false then some .gitDirNotFound
  else if dryRun then none
  else if env.pruneCmdFails then some .pruneFailed
  else none

/-- src/unnamed/part_005 `CleanWorktrees`: reject a negative threshold,
succeed with no work when the root does not exist, scan and reclaim the
immediate children, then prune git worktree metadata. -/
def CleanWorktrees (st : CleanupState) (env : CleanupEnv)
    (now thresholdDays : Int) (dryRun : Bool) : CleanupState × Option CleanErr :=
  if thresholdDays < 0 then (st, some .invalidThreshold)
  else if st.rootExists = false then (st, none)
  else
    let cutoff := now - thresholdDays
    let res := cleanPass cutoff dryRun env st.entries
    let st2 : CleanupState := ⟨st.rootExists, res.1, st.repoHasGitDir⟩
    match res.2 with
    | some e => (st2, some e)
    | none =>
      match pruneGitWorktrees st2.repoHasGitDir env dryRun with
      | some e => (st2, some e)
      | none => (st2, none)

/-! ## Concurrent issue pool of `Application.Run` (src/main.go)

The errgroup closures update `successCount`/`errorCount` under a mutex and
always return `nil`, so the aggregate state after `g.Wait()` is that of a
left fold over the dispatch order, and the first error seen by the group
(`waitErr`) can only ever be `none`. `perIssueWork` stands for the
`app.processIssue` call of the closure. -/

/-- Aggregate pool state: the two mutex-protected counters, the issue IDs
for which the work closure body was invoked (in dispatch order), and the
first non-nil value returned by a closure, which `g.Wait()` reports. -/
structure PoolResult where
  successCount : Nat
  errorCount : Nat
  invoked : List String
  waitErr : Option String
deriving DecidableEq, Repr

/-- Body of the `g.Go` closure in `Application.Run`: run the per-issue
work, increment exactly one counter, and return `nil` either way so that
an individual failure never reaches the errgroup. -/
def poolGoClosure (work : String → Except String Unit) (st : PoolResult)
    (issueID : String) : PoolResult :=
  let st1 : PoolResult := ⟨st.successCount, st.errorCount, st.invoked ++ [issueID], st.waitErr⟩
  match work issueID with
  | .error _ => ⟨st1.successCount, st1.errorCount + 1, st1.invoked, st1.waitErr⟩
  | .ok _ => ⟨st1.successCount + 1, st1.errorCount, st1.invoked, st1.waitErr⟩

/-- The fan-out loop of `Application.Run` followed by `g.Wait()`. -/
def processIssuesConcurrently (work : String → Except String Unit)
    (issueIDs : List String) : PoolResult :=
  issueIDs.foldl (poolGoClosure work) ⟨0, 0, [], none⟩

/-- Tail of `Application.Run` after the pool completes: a `g.Wait()` error
becomes a pool-level failure, and otherwise the run fails iff any issue
failed. -/
def runPoolSection (work : String → Except String Unit)
    (issueIDs : List String) : PoolResult × Except String Unit :=
  let r := processIssuesConcurrently work issueIDs
  match r.waitErr with
  | some e => (r, .error ("failed to process issues: " ++ e))
  | none =>
    if r.errorCount > 0 then (r, .error "issues failed to process")
    else (r, .ok ())

/-- Whether an `Except` result is a success. -/
def exceptIsOk {ε α : Type} : Except ε α → Bool
  | .ok _ => true
  | .error _ => false

/-- Whether the per-issue work fails on a given ID. -/
def workFails (work : String → Except String Unit) (id : String) : Bool :=
  !exceptIsOk (work id)

/-! ## `Application.processIssue` (src/main.go) and `runWorkflow`
(src/cmd/workflow.go)

The external calls of both functions are replaced by success oracles; the
returned trace records, in order, which stages were attempted. -/

/-- Stages of `Application.processIssue`. -/
inductive WStep
  | fetchIssue
  | markInProgress
  | createWorktreeStep
  | featureFile
  | launchFriday
deriving DecidableEq, Repr

/-- Success oracle for the five external calls of `processIssue`. -/
structure IssueEnv where
  fetchOk : Bool
  markOk : Bool
  worktreeOk : Bool
  featureOk : Bool
  launchOk : Bool
deriving DecidableEq, Repr

/-- src/main.go `Application.processIssue`: fetch issue details, mark the
issue in progress, create the worktree, create `_feature.md`, and launch
Friday unless in dry-run mode. Every failing step, the in-progress update
included, returns its wrapped error immediately. -/
def processIssue (env : IssueEnv) (dryRun : Bool) : List WStep × Except String Unit :=
  if env.fetchOk = false then
    ([WStep.fetchIssue], .error "failed to fetch issue details")
  else if env.markOk = false then
    ([WStep.fetchIssue, WStep.markInProgress], .error "failed to mark issue as in progress")
  else if env.worktreeOk = false then
    ([WStep.fetchIssue, WStep.markInProgress, WStep.createWorktreeStep],
      .error "failed to create worktree")
  else if env.featureOk = false then
    ([WStep.fetchIssue, WStep.markInProgress, WStep.createWorktreeStep, WStep.featureFile],
      .error "failed to create feature file")
  else if dryRun then
    ([WStep.fetchIssue, WStep.markInProgress, WStep.createWorktreeStep, WStep.featureFile],
      .ok ())
  else if env.launchOk = false then
    ([WStep.fetchIssue, WStep.markInProgress, WStep.createWorktreeStep, WStep.featureFile,
      WStep.launchFriday], .error "failed to launch Friday")
  else
    ([WStep.fetchIssue, WStep.markInProgress, WStep.createWorktreeStep, WStep.featureFile,
      WStep.launchFriday], .ok ())

/-- Stages of `runWorkflow`. -/
inductive FStep
  | fetchIssue
  | markInProgress
  | cloneRepo
  | chdirStep
  | createBranch
  | runCodexStep
  | gitAdd
  | gitCommit
  | gitPush
  | addComment
deriving DecidableEq, Repr

/-- Success oracle for the environment checks and external calls of
`runWorkflow`. The `git status` and `git diff --cached` logging calls have
no control-flow effect and are omitted. -/
structure WorkflowEnv where
  linearKeySet : Bool
  githubTokenSet : Bool
  openaiKeySet : Bool
  fetchOk : Bool
  markOk : Bool
  cloneOk : Bool
  chdirOk : Bool
  branchOk : Bool
  codexOk : Bool
  addOk : Bool
  commitOk : Bool
  pushOk : Bool
  commentOk : Bool
deriving DecidableEq, Repr

/-- Copy of a `WorkflowEnv` with the in-progress update outcome replaced. -/
def withMarkOk (env : WorkflowEnv) (b : Bool) : WorkflowEnv :=
  ⟨env.linearKeySet, env.githubTokenSet, env.openaiKeySet, env.fetchOk, b, env.cloneOk,
    env.chdirOk, env.branchOk, env.codexOk, env.addOk, env.commitOk, env.pushOk, env.commentOk⟩

/-- src/cmd/workflow.go `runWorkflow`: environment-variable checks, fetch,
best-effort in-progress update (a failure is only logged as a warning, so
`markOk` is never consulted), clone, chdir, branch, Codex, stage, commit,
push, and a best-effort branch-link comment (also warning-only). -/
def runWorkflow (env : WorkflowEnv) : List FStep × Except String Unit :=
  if env.linearKeySet = false then
    ([], .error "LINEAR_API_KEY environment variable is required")
  else if env.githubTokenSet = false then
    ([], .error "GITHUB_TOKEN environment variable is required")
  else if env.openaiKeySet = false then
    ([], .error "OPENAI_API_KEY environment variable is required")
  else if env.fetchOk = false then
    ([FStep.fetchIssue], .error "failed to fetch issue details")
  else if env.cloneOk = false then
    ([FStep.fetchIssue, FStep.markInProgress, FStep.cloneRepo],
      .error "failed to clone repository")
  else if env.chdirOk = false then
    ([FStep.fetchIssue, FStep.markInProgress, FStep.cloneRepo, FStep.chdirStep],
      .error "failed to change directory")
  else if env.branchOk = false then
    ([FStep.fetchIssue, FStep.markInProgress, FStep.cloneRepo, FStep.chdirStep,
      FStep.createBranch], .error "failed to create branch")
  else if env.codexOk = false then
    ([FStep.fetchIssue, FStep.markInProgress, FStep.cloneRepo, FStep.chdirStep,
      FStep.createBranch, FStep.runCodexStep], .error "failed to run Codex")
  else if env.addOk = false then
    ([FStep.fetchIssue, FStep.markInProgress, FStep.cloneRepo, FStep.chdirStep,
      FStep.createBranch, FStep.runCodexStep, FStep.gitAdd], .error "failed to stage changes")
  else if env.commitOk = false then
    ([FStep.fetchIssue, FStep.markInProgress, FStep.cloneRepo, FStep.chdirStep,
      FStep.createBranch, FStep.runCodexStep, FStep.gitAdd, FStep.gitCommit],
      .error "failed to commit changes")
  else if env.pushOk = false then
    ([FStep.fetchIssue, FStep.markInProgress, FStep.cloneRepo, FStep.chdirStep,
      FStep.createBranch, FStep.runCodexStep, FStep.gitAdd, FStep.gitCommit, FStep.gitPush],
      .error "failed to push branch")
  else
    ([FStep.fetchIssue, FStep.markInProgress, FStep.cloneRepo, FStep.chdirStep,
      FStep.createBranch, FStep.runCodexStep, FStep.gitAdd, FStep.gitCommit, FStep.gitPush,
      FStep.addComment], .ok ())

/-! ## Lemmas about the sanitizer -/

theorem mem_of_mem_dropWhileP {α : Type} {p : α → Bool} {l : List α} {c : α}
    (h : c ∈ l.dropWhile p) : c ∈ l := by
  induction l with
  | nil => simp at h
  | cons a t ih =>
    rw [List.dropWhile_cons] at h
    by_cases hp : p a
    · simp only [hp, if_true] at h
      exact List.mem_cons_of_mem a (ih h)
    · simpa [hp] using h

theorem mem_of_mem_trimDash {l : List Char} {c : Char} (h : c ∈ trimDash l) : c ∈ l := by
  unfold trimDash at h
  rw [List.mem_reverse] at h
  have h2 := mem_of_mem_dropWhileP h
  rw [List.mem_reverse] at h2
  exact mem_of_mem_dropWhileP h2

theorem allowed_replChar (c : Char) : allowedChar (replChar c) = true := by
  unfold replChar
  by_cases h : allowedChar c
  · simp [h]
  · simp only [h, Bool.false_eq_true, if_false]
    decide

theorem sanitize_all_allowed (l : List Char) : (sanitizeChars l).all allowedChar = true := by
  unfold sanitizeChars
  by_cases h0 : l = []
  · simp only [h0, if_true]
    decide
  · simp only [h0, if_false]
    by_cases h1 : trimDash (l.map replChar) = []
    · simp only [h1, if_true]
      decide
    · simp only [h1, if_false]
      rw [List.all_eq_true]
      intro c hc
      have := mem_of_mem_trimDash hc
      rcases List.mem_map.mp this with ⟨d, _, hd⟩
      rw [← hd]
      exact allowed_replChar d

theorem sanitize_ne_nil (l : List Char) : sanitizeChars l ≠ [] := by
  unfold sanitizeChars
  by_cases h0 : l = []
  · simp only [h0, if_true]; decide
  · simp only [h0, if_false]
    by_cases h1 : trimDash (l.map replChar) = []
    · simp only [h1, if_true]; decide
    · simp [h1]

theorem head?_dropWhile_false {α : Type} (p : α → Bool) (l : List α) {a : α}
    (h : (l.dropWhile p).head? = some a) : p a = false := by
  induction l with
  | nil => simp at h
  | cons b t ih =>
    rw [List.dropWhile_cons] at h
    cases hp : p b with
    | true => exact ih (by simpa [hp] using h)
    | false =>
      simp only [hp, Bool.false_eq_true, if_false, List.head?_cons, Option.some.injEq] at h
      exact h ▸ hp

theorem getLast?_reverse' {α : Type} (l : List α) : l.reverse.getLast? = l.head? := by
  have := List.head?_reverse l.reverse
  rw [List.reverse_reverse] at this
  exact this.symm

theorem head?_prepend_ne_nil {α : Type} {u v : List α} (h : u ≠ []) :
    (u ++ v).head? = u.head? := by
  cases u with
  | nil => exact absurd rfl h
  | cons a t => rfl

theorem getLast?_trimDash (l : List Char) : (trimDash l).getLast? ≠ some '-' := by
  unfold trimDash
  rw [getLast?_reverse']
  intro h
  have := head?_dropWhile_false (fun c => c == '-') (l.dropWhile (fun c => c == '-')).reverse h
  simp at this

theorem head?_trimDash (l : List Char) : (trimDash l).head? ≠ some '-' := by
  set p : Char → Bool := fun c => c == '-' with hp
  set m : List Char := l.dropWhile p with hm
  by_cases hnil : trimDash l = []
  · simp [hnil]
  · intro h
    have hsplit : m.reverse = m.reverse.takeWhile p ++ m.reverse.dropWhile p :=
      (List.takeWhile_append_dropWhile p m.reverse).symm
    have hm2 : m = (m.reverse.dropWhile p).reverse ++ (m.reverse.takeWhile p).reverse := by
      have := congrArg List.reverse hsplit
      rwa [List.reverse_reverse, List.reverse_append] at this
    have htd : trimDash l = (m.reverse.dropWhile p).reverse := by
      unfold trimDash
      rw [← hm]
    have hhead : m.head? = (trimDash l).head? := by
      rw [hm2, ← htd, head?_prepend_ne_nil hnil]
    have hmh : m.head? = some '-' := by rw [hhead, h]
    have := head?_dropWhile_false p l hmh
    simp [hp] at this

theorem sanitize_head? (l : List Char) : (sanitizeChars l).head? ≠ some '-' := by
  unfold sanitizeChars
  by_cases h0 : l = []
  · simp only [h0, if_true]; decide
  · simp only [h0, if_false]
    by_cases h1 : trimDash (l.map replChar) = []
    · simp only [h1, if_true]; decide
    · simp only [h1, if_false]
      exact head?_trimDash _

theorem sanitize_getLast? (l : List Char) : (sanitizeChars l).getLast? ≠ some '-' := by
  unfold sanitizeChars
  by_cases h0 : l = []
  · simp only [h0, if_true]; decide
  · simp only [h0, if_false]
    by_cases h1 : trimDash (l.map replChar) = []
    · simp only [h1, if_true]; decide
    · simp only [h1, if_false]
      exact getLast?_trimDash _

theorem map_replChar_id {l : List Char} (h : l.all allowedChar = true) :
    l.map replChar = l := by
  induction l with
  | nil => rfl
  | cons a t ih =>
    rw [List.all_cons, Bool.and_eq_true] at h
    simp only [List.map_cons]
    rw [ih h.2]
    unfold replChar
    rw [if_pos h.1]

theorem dropWhile_dash_id {l : List Char} (h : l.head? ≠ some '-') :
    l.dropWhile (fun c => c == '-') = l := by
  cases l with
  | nil => rfl
  | cons a t =>
    have ha : ¬(a == '-') = true := by
      intro hb
      exact h (by simp [List.head?_cons, eq_of_beq hb])
    rw [List.dropWhile_cons, if_neg ha]

theorem trimDash_id {l : List Char} (h1 : l.head? ≠ some '-') (h2 : l.getLast? ≠ some '-') :
    trimDash l = l := by
  unfold trimDash
  rw [dropWhile_dash_id h1]
  have hrev : l.reverse.head? ≠ some '-' := by
    rw [List.head?_reverse]; exact h2
  rw [dropWhile_dash_id hrev, List.reverse_reverse]

theorem sanitize_fixed {l : List Char} (h0 : l ≠ []) (h1 : l.all allowedChar = true)
    (h2 : l.head? ≠ some '-') (h3 : l.getLast? ≠ some '-') : sanitizeChars l = l := by
  unfold sanitizeChars
  rw [if_neg h0]
  simp only [map_replChar_id h1, trimDash_id h2 h3, if_neg h0]

/-- C4. For every input string, `SanitizeBranchName` produces a string
containing only characters from `[A-Za-z0-9_-]`, never the empty string,
and its value is exactly the spec's algorithm: replace every disallowed
character by a hyphen, trim leading and trailing hyphens, and fall back to
the literal "issue" when the result (or the input) is empty. The function
is a total Lean function, matching the "no error conditions" part. -/
theorem c4_sanitize_spec (s : String) :
    (SanitizeBranchName s).data.all allowedChar = true ∧
    SanitizeBranchName s ≠ "" ∧
    SanitizeBranchName s = sanitizeSpecModel s := by
  refine ⟨?_, ?_, ?_⟩
  · exact sanitize_all_allowed s.data
  · intro h
    have : sanitizeChars s.data = [] := congrArg String.data h
    exact sanitize_ne_nil s.data this
  · unfold SanitizeBranchName sanitizeSpecModel sanitizeChars
    by_cases h0 : s.data = []
    · rw [h0]
      simp only [if_true, List.map_nil]
      rfl
    · simp only [h0, if_false]
      by_cases h1 : trimDash (s.data.map replChar) = []
      · simp only [h1, if_true]
        rfl
      · simp only [h1, if_false]

/-- C8. `SanitizeBranchName` is idempotent: sanitizing an already-sanitized
name changes nothing, because every output is non-empty, consists of
allowed characters only, and neither starts nor ends with a hyphen. -/
theorem c8_sanitize_idempotent (x : String) :
    SanitizeBranchName (SanitizeBranchName x) = SanitizeBranchName x := by
  unfold SanitizeBranchName
  have hdata : (List.asString (sanitizeChars x.data)).data = sanitizeChars x.data := rfl
  rw [hdata]
  exact congrArg List.asString
    (sanitize_fixed (sanitize_ne_nil x.data) (sanitize_all_allowed x.data)
      (sanitize_head? x.data) (sanitize_getLast? x.data))

/-! ## Lemmas about the filesystem model and the cleanup pass -/

theorem fsStat_fsInsert_self (fs : FS) (p : String) (n : FNode) :
    fsStat (fsInsert fs p n) p = some n := by
  simp [fsStat, fsInsert, List.find?]

theorem cleanPass_no_fail (cutoff : Int) (env : CleanupEnv) :
    ∀ l : List DirEntry, (∀ e ∈ l, env.removeFails e.name = false) →
    cleanPass cutoff false env l =
      (l.filter (fun e => !(e.isDir && decide (e.modTime < cutoff))), none) := by
  intro l
  induction l with
  | nil => intro _; rfl
  | cons e rest ih =>
    intro h
    have he : env.removeFails e.name = false := h e (List.mem_cons_self e rest)
    have hrest : ∀ x ∈ rest, env.removeFails x.name = false :=
      fun x hx => h x (List.mem_cons_of_mem e hx)
    unfold cleanPass
    by_cases hd : e.isDir = false
    · simp [hd, ih hrest, List.filter_cons]
    · have hd' : e.isDir = true := by
        cases hb : e.isDir
        · exact absurd hb hd
        · rfl
      by_cases hm : e.modTime < cutoff
      · simp [hd, hd', hm, he, ih hrest, List.filter_cons]
      · simp [hd, hd', hm, ih hrest, List.filter_cons]

theorem cleanPass_dryRun (cutoff : Int) (env : CleanupEnv) :
    ∀ l : List DirEntry, cleanPass cutoff true env l = (l, none) := by
  intro l
  induction l with
  | nil => rfl
  | cons e rest ih =>
    unfold cleanPass
    by_cases hd : e.isDir = false
    · simp [hd, ih]
    · by_cases hm : e.modTime < cutoff
      · simp [hd, hm, ih]
      · simp [hd, hm, ih]

/-- C1. With a valid repository and an existing base branch: when a
filesystem entry already exists at `join(worktreeRoot, issueID)`,
`CreateWorktreeForIssue` fails with the worktree-already-exists error and
returns the filesystem unchanged; and after any successful creation, a
second call with the same root and issue ID fails the same way and leaves
the filesystem state of the first call — the first worktree's contents
included — untouched. -/
theorem c1_worktree_collision (env : GitEnv) (fs : FS) (root repo id base : String)
    (hrepo : env.repoValid = true) (hbr : env.branchExists base = true) :
    ((fsStat fs (filepathJoin root id)).isSome = true →
      CreateWorktreeForIssue env fs root repo id base = (fs, .error .worktreeAlreadyExists)) ∧
    ∀ fs1 out, CreateWorktreeForIssue env fs root repo id base = (fs1, .ok out) →
      CreateWorktreeForIssue env fs1 root repo id base = (fs1, .error .worktreeAlreadyExists) := by
  have h1 : ¬(env.repoValid = false) := by simp [hrepo]
  have h2 : ¬(env.branchExists base = false) := by simp [hbr]
  constructor
  · intro hst
    unfold CreateWorktreeForIssue
    rw [if_neg h1, if_neg h2, if_pos hst]
  · intro fs1 out h
    unfold CreateWorktreeForIssue at h
    rw [if_neg h1, if_neg h2] at h
    by_cases hst : (fsStat fs (filepathJoin root id)).isSome = true
    · rw [if_pos hst] at h
      exact absurd (congrArg Prod.snd h) (by simp)
    · rw [if_neg hst] at h
      by_cases hmk : env.mkdirOk = false
      · rw [if_pos hmk] at h
        exact absurd (congrArg Prod.snd h) (by simp)
      · rw [if_neg hmk] at h
        by_cases hwa : env.worktreeAddOk = false
        · rw [if_pos hwa] at h
          exact absurd (congrArg Prod.snd h) (by simp)
        · rw [if_neg hwa] at h
          have hfs1 : fs1 = fsInsert (fsMkdirAll fs root) (filepathJoin root id) FNode.dir :=
            (congrArg Prod.fst h).symm
          unfold CreateWorktreeForIssue
          rw [if_neg h1, if_neg h2, if_pos]
          rw [hfs1, fsStat_fsInsert_self]
          rfl

/-- C1 witness: in an empty filesystem with an all-success oracle, the
first creation for issue "I-1" under root "/w" succeeds, and the second
call fails with the worktree-already-exists error leaving the state of the
first call unchanged. -/
theorem c1_worktree_collision_witness :
    CreateWorktreeForIssue ⟨true, fun _ => true, true, true⟩
        [("/w/I-1", FNode.dir), ("/w", FNode.dir)] "/w" "/repo" "I-1" "main" =
      ([("/w/I-1", FNode.dir), ("/w", FNode.dir)], .error .worktreeAlreadyExists) :=
  (c1_worktree_collision ⟨true, fun _ => true, true, true⟩ [] "/w" "/repo" "I-1" "main"
    rfl rfl).2 [("/w/I-1", FNode.dir), ("/w", FNode.dir)] ⟨"/w/I-1", "I-1"⟩ rfl

/-- C5. With an existing worktree root, a non-negative threshold, dry-run
off and no removal failure, `CleanWorktrees` leaves exactly the immediate
children that are not directories last modified strictly before
`now - thresholdDays`: old directories are removed, plain files and
up-to-date directories survive. -/
theorem c5_clean_removes_old_dirs (st : CleanupState) (env : CleanupEnv) (now td : Int)
    (hroot : st.rootExists = true) (htd : 0 ≤ td)
    (hrm : ∀ e ∈ st.entries, env.removeFails e.name = false) :
    ((CleanWorktrees st env now td false).1).entries =
      st.entries.filter (fun e => !(e.isDir && decide (e.modTime < now - td))) := by
  unfold CleanWorktrees
  rw [if_neg (by omega : ¬ td < 0), if_neg (by simp [hroot])]
  simp only [cleanPass_no_fail (now - td) env st.entries hrm]
  cases hpr : pruneGitWorktrees st.repoHasGitDir env false <;> simp [hpr]

/-- C5 witness: with children {directory aged 10 days, directory aged 3
days, plain file aged 10 days} and threshold 7, only the 10-day directory
is removed. -/
theorem c5_clean_removes_old_dirs_witness :
    ((CleanWorktrees ⟨true, [⟨"old", true, 90⟩, ⟨"recent", true, 97⟩, ⟨"f", false, 90⟩], true⟩
        ⟨fun _ => false, false⟩ 100 7 false).1).entries =
      [⟨"recent", true, 97⟩, ⟨"f", false, 90⟩] := by
  have h := c5_clean_removes_old_dirs
    ⟨true, [⟨"old", true, 90⟩, ⟨"recent", true, 97⟩, ⟨"f", false, 90⟩], true⟩
    ⟨fun _ => false, false⟩ 100 7 rfl (by decide) (fun e _ => rfl)
  exact h.trans (by decide)

/-- C6. With a non-negative threshold and dry-run on, `CleanWorktrees`
changes nothing: the worktree root, its entries and the repository state
after the call are exactly what they were before it. -/
theorem c6_clean_dry_run_frame (st : CleanupState) (env : CleanupEnv) (now td : Int)
    (htd : 0 ≤ td) :
    (CleanWorktrees st env now td true).1 = st := by
  unfold CleanWorktrees
  rw [if_neg (by omega : ¬ td < 0)]
  by_cases hroot : st.rootExists = false
  · rw [if_pos hroot]
  · rw [if_neg hroot]
    simp only [cleanPass_dryRun (now - td) env st.entries]
    cases hpr : pruneGitWorktrees st.repoHasGitDir env true <;> simp [hpr]

/-- C6 witness: a dry-run pass over a 10-day-old directory with threshold 7
returns the state unchanged. -/
theorem c6_clean_dry_run_frame_witness :
    (CleanWorktrees ⟨true, [⟨"old", true, 90⟩], true⟩ ⟨fun _ => false, false⟩ 100 7 true).1 =
      ⟨true, [⟨"old", true, 90⟩], true⟩ :=
  c6_clean_dry_run_frame ⟨true, [⟨"old", true, 90⟩], true⟩ ⟨fun _ => false, false⟩ 100 7
    (by decide)

/-- C7 counterexample: with an existing (empty) worktree root and a
repository path without a `.git` marker, `CleanWorktrees` in dry-run mode
does not return success after the successful directory pass — it fails
with the git-directory-not-found error, because `pruneGitWorktrees` checks
the marker before its dry-run branch. -/
theorem c7_dry_run_prune_counterexample :
    (CleanWorktrees ⟨true, [], false⟩ ⟨fun _ => false, false⟩ 0 0 true).2 =
      some CleanErr.gitDirNotFound := rfl

/-- C7 amended: in dry-run mode the prune command itself is never invoked
(the outcome is independent of the prune-command oracle and never the
prune-failure error), but the repository-marker check still runs:
`CleanWorktrees` with dry-run on and an existing root succeeds exactly
when `repoPath/.git` exists, and fails with the git-directory-not-found
error when it does not. -/
theorem c7_dry_run_prune_amended (st : CleanupState) (env : CleanupEnv) (now td : Int)
    (hroot : st.rootExists = true) (htd : 0 ≤ td) :
    (CleanWorktrees st env now td true).2 =
      (if st.repoHasGitDir = true then none else some CleanErr.gitDirNotFound) := by
  unfold CleanWorktrees
  rw [if_neg (by omega : ¬ td < 0), if_neg (by simp [hroot])]
  simp only [cleanPass_dryRun (now - td) env st.entries]
  unfold pruneGitWorktrees
  by_cases hg : st.repoHasGitDir = true
  · simp [hg]
  · have hg' : st.repoHasGitDir = false := by
      cases hb : st.repoHasGitDir
      · rfl
      · exact absurd hb hg
    simp [hg']

/-- C7 amended witness: dry-run with a present `.git` marker succeeds even
when the prune command itself would fail, showing the command is skipped. -/
theorem c7_dry_run_prune_amended_witness :
    (CleanWorktrees ⟨true, [⟨"old", true, 90⟩], true⟩ ⟨fun _ => false, true⟩ 100 7 true).2 =
      none := by
  have h := c7_dry_run_prune_amended ⟨true, [⟨"old", true, 90⟩], true⟩ ⟨fun _ => false, true⟩
    100 7 rfl (by decide)
  exact h.trans (by decide)

/-! ## Lemmas about the issue pool -/

theorem pool_fold_eq (work : String → Except String Unit) (ids : List String) :
    ∀ st : PoolResult,
    ids.foldl (poolGoClosure work) st =
      ⟨st.successCount + (ids.countP (fun id => !(workFails work id))),
        st.errorCount + (ids.countP (workFails work)),
        st.invoked ++ ids, st.waitErr⟩ := by
  induction ids with
  | nil => intro st; simp
  | cons id rest ih =>
    intro st
    rw [List.foldl_cons, ih]
    unfold poolGoClosure workFails exceptIsOk
    cases hw : work id with
    | error e =>
      simp only [hw, List.countP_cons]
      simp [List.append_assoc]
      omega
    | ok u =>
      simp only [hw, List.countP_cons]
      simp [List.append_assoc]
      omega

theorem processIssuesConcurrently_eq (work : String → Except String Unit)
    (ids : List String) :
    processIssuesConcurrently work ids =
      ⟨ids.countP (fun id => !(workFails work id)), ids.countP (workFails work), ids, none⟩ := by
  unfold processIssuesConcurrently
  rw [pool_fold_eq]
  simp

theorem countP_split {α : Type} (p : α → Bool) (l : List α) :
    l.countP p + l.countP (fun a => !(p a)) = l.length := by
  induction l with
  | nil => rfl
  | cons a t ih => by_cases h : p a <;> simp [List.countP_cons, h] <;> omega

/-- C10. After the pool of `Application.Run` completes, the two
mutex-protected counters partition the processed issue IDs — the work was
invoked once per ID, in dispatch order, and `successCount + errorCount`
equals the number of IDs — and the run's result after the pool is an error
exactly when `errorCount` is positive. -/
theorem c10_run_counts (work : String → Except String Unit) (ids : List String) :
    (processIssuesConcurrently work ids).successCount +
        (processIssuesConcurrently work ids).errorCount = ids.length ∧
    (processIssuesConcurrently work ids).invoked = ids ∧
    (exceptIsOk (runPoolSection work ids).2 = true ↔
      (processIssuesConcurrently work ids).errorCount = 0) := by
  rw [processIssuesConcurrently_eq]
  refine ⟨?_, rfl, ?_⟩
  · have := countP_split (workFails work) ids
    simp only
    omega
  · unfold runPoolSection
    rw [processIssuesConcurrently_eq]
    by_cases he : ids.countP (workFails work) = 0
    · simp [he, exceptIsOk]
    · simp only [he]
      have : ids.countP (workFails work) > 0 := Nat.pos_of_ne_zero he
      simp [this, exceptIsOk, he]

/-- C2. When exactly one of the per-issue work invocations fails, the pool
still invokes the work for every ID in the list (the trace of invocations
is the full dispatch list), finishes with `errorCount = 1` and
`successCount = N - 1`, and the errgroup itself never sees an error from a
work item: every closure returns nil, so `g.Wait()` reports none. -/
theorem c2_pool_isolation (work : String → Except String Unit) (ids : List String)
    (hone : ids.countP (workFails work) = 1) :
    (processIssuesConcurrently work ids).invoked = ids ∧
    (processIssuesConcurrently work ids).errorCount = 1 ∧
    (processIssuesConcurrently work ids).successCount = ids.length - 1 ∧
    (processIssuesConcurrently work ids).waitErr = none := by
  rw [processIssuesConcurrently_eq]
  refine ⟨rfl, hone, ?_, rfl⟩
  have hlen := countP_split (workFails work) ids
  rw [hone] at hlen
  simp only
  omega

/-- C2 witness: three issues where only "B" fails — all three are invoked,
with one error, two successes and no errgroup-level error. -/
theorem c2_pool_isolation_witness :
    (processIssuesConcurrently (fun id => if id = "B" then .error "boom" else .ok ())
        ["A", "B", "C"]).invoked = ["A", "B", "C"] ∧
    (processIssuesConcurrently (fun id => if id = "B" then .error "boom" else .ok ())
        ["A", "B", "C"]).errorCount = 1 ∧
    (processIssuesConcurrently (fun id => if id = "B" then .error "boom" else .ok ())
        ["A", "B", "C"]).successCount = 2 ∧
    (processIssuesConcurrently (fun id => if id = "B" then .error "boom" else .ok ())
        ["A", "B", "C"]).waitErr = none := by
  have h := c2_pool_isolation (fun id => if id = "B" then .error "boom" else .ok ())
    ["A", "B", "C"] (by decide)
  exact ⟨h.1, h.2.1, h.2.2.1.trans (by decide), h.2.2.2⟩

/-! ## Claims about the per-issue sequences -/

/-- C3 counterexample: in the pooled per-worker sequence
(`Application.processIssue`), a failing in-progress update is not
downgraded to a warning — with the fetch succeeding and the mark call
failing, the worker returns the wrapped mark error and never reaches
worktree creation, so the issue is counted as an error. -/
theorem c3_mark_in_progress_counterexample :
    (processIssue ⟨true, false, true, true, true⟩ false).2 =
      Except.error "failed to mark issue as in progress" ∧
    WStep.createWorktreeStep ∉ (processIssue ⟨true, false, true, true, true⟩ false).1 := by
  exact ⟨rfl, by decide⟩

/-- C3 amended: in `Application.processIssue` (the per-worker sequence of
the pool) a failure of the in-progress update fails the issue — the worker
returns the wrapped error without proceeding to worktree creation — while
only in the `runWorkflow` path (src/cmd/workflow.go) is the failure logged
as a warning and ignored: there the entire run, trace and result, is
independent of the mark outcome. -/
theorem c3_mark_in_progress_amended (env : IssueEnv) (wenv : WorkflowEnv) (dryRun : Bool)
    (h1 : env.fetchOk = true) (h2 : env.markOk = false) :
    (processIssue env dryRun).2 = Except.error "failed to mark issue as in progress" ∧
    WStep.createWorktreeStep ∉ (processIssue env dryRun).1 ∧
    runWorkflow (withMarkOk wenv false) = runWorkflow (withMarkOk wenv true) := by
  have hproc : processIssue env dryRun =
      ([WStep.fetchIssue, WStep.markInProgress],
        Except.error "failed to mark issue as in progress") := by
    unfold processIssue
    rw [if_neg (by simp [h1]), if_pos h2]
  refine ⟨by rw [hproc], by rw [hproc]; decide, rfl⟩

/-- C3 amended witness: with all other calls succeeding and the mark call
failing, the pooled worker fails before worktree creation, and the
workflow path is unaffected by the same failure. -/
theorem c3_mark_in_progress_amended_witness :
    (processIssue ⟨true, false, true, true, true⟩ true).2 =
      Except.error "failed to mark issue as in progress" ∧
    WStep.createWorktreeStep ∉ (processIssue ⟨true, false, true, true, true⟩ true).1 ∧
    runWorkflow (withMarkOk ⟨true, true, true, true, true, true, true, true, true, true,
      true, true, true⟩ false) =
      runWorkflow (withMarkOk ⟨true, true, true, true, true, true, true, true, true, true,
        true, true, true⟩ true) :=
  c3_mark_in_progress_amended ⟨true, false, true, true, true⟩
    ⟨true, true, true, true, true, true, true, true, true, true, true, true, true⟩ true rfl rfl

/-- C9 counterexample: the claim that the worktree directory basename and
the branch name differ for every issue ID containing a character outside
`[A-Za-z0-9_-]` fails at `issueID = "x/"`: the creation succeeds, the
returned path is the cleaned `join("/tmp/monday-worktrees", "x/") =
"/tmp/monday-worktrees/x"`, whose basename "x" is exactly the branch name
`SanitizeBranchName "x/" = "x"`, although '/' is outside the allowed set. -/
theorem c9_raw_dir_sanitized_branch_counterexample :
    (CreateWorktreeForIssue ⟨true, fun _ => true, true, true⟩ []
        "/tmp/monday-worktrees" "/repo" "x/" "main").2 =
      .ok ⟨"/tmp/monday-worktrees/x", "x"⟩ ∧
    filepathBase "/tmp/monday-worktrees/x" = SanitizeBranchName "x/" ∧
    allowedChar '/' = false :=
  ⟨rfl, rfl, rfl⟩

/-- C9 amended: on success `CreateWorktreeForIssue` returns
`join(worktreeRoot, issueID)` computed from the raw, unsanitized issue ID,
while the branch handed to git is `SanitizeBranchName issueID`; and the
raw issue ID itself (the path component passed to join) differs from the
branch name whenever it contains a character outside `[A-Za-z0-9_-]` or
has a leading or trailing hyphen. (The basename of the returned path can
still coincide with the branch name when the issue ID contains path
separators, because join cleans the path — see the counterexample.) -/
theorem c9_raw_dir_sanitized_branch_amended (env : GitEnv) (fs : FS)
    (root repo id base : String) (fs2 : FS) (out : CreatedWorktree)
    (hsucc : CreateWorktreeForIssue env fs root repo id base = (fs2, .ok out))
    (hbad : (∃ c ∈ id.data, allowedChar c = false) ∨
      id.data.head? = some '-' ∨ id.data.getLast? = some '-') :
    out.path = filepathJoin root id ∧ out.branch = SanitizeBranchName id ∧
    out.branch ≠ id := by
  have hout : out = ⟨filepathJoin root id, SanitizeBranchName id⟩ := by
    unfold CreateWorktreeForIssue at hsucc
    by_cases hr : env.repoValid = false
    · rw [if_pos hr] at hsucc
      exact absurd (congrArg Prod.snd hsucc) (by simp)
    · rw [if_neg hr] at hsucc
      by_cases hb : env.branchExists base = false
      · rw [if_pos hb] at hsucc
        exact absurd (congrArg Prod.snd hsucc) (by simp)
      · rw [if_neg hb] at hsucc
        by_cases hst : (fsStat fs (filepathJoin root id)).isSome = true
        · rw [if_pos hst] at hsucc
          exact absurd (congrArg Prod.snd hsucc) (by simp)
        · rw [if_neg hst] at hsucc
          by_cases hmk : env.mkdirOk = false
          · rw [if_pos hmk] at hsucc
            exact absurd (congrArg Prod.snd hsucc) (by simp)
          · rw [if_neg hmk] at hsucc
            by_cases hwa : env.worktreeAddOk = false
            · rw [if_pos hwa] at hsucc
              exact absurd (congrArg Prod.snd hsucc) (by simp)
            · rw [if_neg hwa] at hsucc
              have := congrArg Prod.snd hsucc
              simp only [Except.ok.injEq] at this
              exact this.symm
  have hsan : SanitizeBranchName id ≠ id := by
    intro heq
    have hdata : sanitizeChars id.data = id.data := congrArg String.data heq
    rcases hbad with ⟨c, hc, hcall⟩ | hh | hl
    · have hall := sanitize_all_allowed id.data
      rw [hdata, List.all_eq_true] at hall
      rw [hall c hc] at hcall
      exact Bool.true_eq_false.mp hcall
    · exact sanitize_head? id.data (by rw [hdata, hh])
    · exact sanitize_getLast? id.data (by rw [hdata, hl])
  rw [hout]
  exact ⟨rfl, rfl, hsan⟩

/-- C9 amended witness: for issue ID "a b" (contains a space), a
successful creation uses the raw ID in the worktree path and the sanitized
branch "a-b", which differs from the raw ID. -/
theorem c9_raw_dir_sanitized_branch_amended_witness :
    ("a-b" : String) = SanitizeBranchName "a b" ∧ ("a-b" : String) ≠ "a b" := by
  have h := c9_raw_dir_sanitized_branch_amended ⟨true, fun _ => true, true, true⟩ []
    "/w" "/repo" "a b" "main" [("/w/a b", FNode.dir), ("/w", FNode.dir)] ⟨"/w/a b", "a-b"⟩
    rfl (Or.inl ⟨' ', by decide, by decide⟩)
  exact ⟨h.2.1, h.2.2⟩
